import Mathlib

/-!
A shallow embedding of the `toolkit` package (v2/tools.go) and proofs of the
specification claims about it.

Conventions of the embedding:
* Go machine integers (`int`, `int64`) are modelled as `Int`; byte buffers as
  `List Nat`; Go `(value, error)` pairs as products with `Option String` for
  the error (the string is the Go error message), or `Except String _`.
* External collaborators (`crypto/rand`, `http.DetectContentType`,
  `encoding/json`) are modelled as oracle inputs: the sequence of random
  numbers, the sniffing function, and the stream of successive
  `Decoder.Decode` outcomes are parameters, since they are stdlib code outside
  this repository.  The repository's own control flow is embedded faithfully.
* The filesystem is a value `FS`: the set of existing directories and the list
  of file paths created by `os.Create`, both as cleaned path-segment lists.
-/

instance exceptDecEq {ε α : Type} [DecidableEq ε] [DecidableEq α] :
    DecidableEq (Except ε α)
  | Except.error e, Except.error f =>
    if h : e = f then isTrue (congrArg Except.error h)
    else isFalse (fun k => h (Except.error.inj k))
  | Except.error _, Except.ok _ => isFalse (fun k => Except.noConfusion k)
  | Except.ok _, Except.error _ => isFalse (fun k => Except.noConfusion k)
  | Except.ok a, Except.ok b =>
    if h : a = b then isTrue (congrArg Except.ok h)
    else isFalse (fun k => h (Except.ok.inj k))

/-- The fixed alphabet used by `RandomString` (v2/tools.go line 17), verbatim
from the source.  Note the source string skips the letters `v` and `V`. -/
def randomStringSource : String :=
  "abcdefghijklmnopqrstuwxyzABCDEFGHIJKLMNOPQRSTUWXYZ0123456789_+@"

/-- The `Tools` configuration struct (v2/tools.go lines 20-25). -/
structure Tools where
  MaxFileSize : Int
  AllowedFileTypes : List String
  MaxJSONSize : Int
  AllowUnknownFields : Bool
deriving DecidableEq

/-- ASCII lowercasing of one character, the behaviour of `strings.ToLower`
(and of Go's Unicode simple case folding) on the ASCII range, which is all
that MIME-type strings and the slug alphabet use. -/
def toLowerChar (c : Char) : Char :=
  if 65 ≤ c.toNat ∧ c.toNat ≤ 90 then Char.ofNat (c.toNat + 32) else c

/-- `strings.ToLower` on a string (ASCII range). -/
def toLowerStr (s : String) : String := String.mk (s.toList.map toLowerChar)

/-- `strings.EqualFold` (case-insensitive equality; ASCII folding). -/
def EqualFold (a b : String) : Bool := toLowerStr a = toLowerStr b

/-- Membership in the character class `[a-z\d]` of the regular expression used
by `Slugify` (v2/tools.go line 179): ASCII lowercase letters and digits. -/
def isSlugKeep (c : Char) : Bool :=
  (97 ≤ c.toNat ∧ c.toNat ≤ 122) ∨ (48 ≤ c.toNat ∧ c.toNat ≤ 57)

/-- `re.ReplaceAllString(s, "-")` for `re = [^a-z\d]+`: every maximal run of
characters outside `[a-z0-9]` is replaced by a single `'-'`.  The boolean flag
records whether the previous character was part of such a run (so the dash for
that run has already been emitted). -/
def replAux : Bool → List Char → List Char
  | _, [] => []
  | inRun, c :: cs =>
    if isSlugKeep c then c :: replAux false cs
    else if inRun then replAux inRun cs
    else '-' :: replAux true cs

/-- Replacement of all maximal `[^a-z\d]+` runs by `"-"` on a whole string. -/
def replaceRuns (l : List Char) : List Char := replAux false l

/-- `strings.Trim(s, "-")`: remove leading and trailing `'-'` characters. -/
def trimDash (l : List Char) : List Char :=
  (((l.dropWhile (fun c => c = '-')).reverse.dropWhile (fun c => c = '-'))).reverse

/-- `Tools.Slugify` (v2/tools.go lines 174-186). -/
def Slugify (s : String) : Except String String :=
  if s = "" then Except.error "empty string is not permitted"
  else
    let slug := trimDash (replaceRuns (s.toList.map toLowerChar))
    if slug.length = 0 then Except.error "after removing characters, slug is zero length"
    else Except.ok (String.mk slug)

/-- `Tools.RandomString` (v2/tools.go lines 28-38).  The oracle `p` gives, for
each loop index, the value `p.Uint64()` of the prime produced by
`rand.Prime(rand.Reader, len(r))`; the source indexes the rune slice at that
value modulo the slice length. -/
def RandomString (p : Nat → Nat) (n : Nat) : String :=
  String.mk ((List.range n).map (fun i =>
    randomStringSource.toList.getD (p i % randomStringSource.toList.length) 'a'))

/-- Splitting a character list at `'/'`; `acc` holds the characters of the
current segment, reversed.  Same segments as `String.splitOn "/"`. -/
def splitSlashAux : List Char → List Char → List String
  | [], acc => [String.mk acc.reverse]
  | c :: cs, acc =>
    if c = '/' then String.mk acc.reverse :: splitSlashAux cs []
    else splitSlashAux cs (c :: acc)

/-- A path split into segments at `'/'`, before cleaning. -/
def splitOnSlash (s : String) : List String := splitSlashAux s.toList []

/-- One step of lexical path cleaning (the core of Go's `filepath.Clean` for
relative paths): `acc` is the stack of kept segments, most recent first.
Empty and `"."` segments are dropped; `".."` pops a kept segment when one is
available and is kept itself otherwise. -/
def cleanPush (acc : List String) (seg : String) : List String :=
  if seg = "" ∨ seg = "." then acc
  else if seg = ".." then
    match acc with
    | [] => [".."]
    | a :: rest => if a = ".." then seg :: a :: rest else rest
  else seg :: acc

/-- Lexical cleaning of a relative path given as segments (`filepath.Clean`). -/
def cleanSegments (segs : List String) : List String :=
  (segs.foldl cleanPush []).reverse

/-- `filepath.Join(dir, name)` (joining then cleaning), returned as the
cleaned segment list of the resulting path. -/
def filepathJoin (dir name : String) : List String :=
  cleanSegments (splitOnSlash dir ++ splitOnSlash name)

/-- `filepath.Ext`: the suffix of the final path element starting at its last
dot, or `""` when the final element has no dot.  `rev` is the yet-unscanned
part of the path, reversed; `acc` holds the characters already scanned, in
original order. -/
def extAux : List Char → List Char → String
  | [], _ => ""
  | c :: rest, acc =>
    if c = '/' then ""
    else if c = '.' then String.mk ('.' :: acc)
    else extAux rest (c :: acc)

/-- `filepath.Ext` on a path string. -/
def filepathExt (p : String) : String := extAux p.toList.reverse []

/-- The filesystem state visible to the embedding: directories that exist and
the paths of files created so far, both as cleaned segment lists. -/
structure FS where
  dirs : List (List String)
  files : List (List String)
deriving DecidableEq

/-- Whether a directory exists (`os.Stat` succeeding on it); the empty
segment list is the current directory, which always exists. -/
def dirExists (fs : FS) (segs : List String) : Bool :=
  segs = [] || fs.dirs.contains segs

/-- `os.Mkdir(path, mode)`: succeeds exactly when the parent directory
exists, and then records the new directory; no intermediate segments are
created. -/
def osMkdir (fs : FS) (segs : List String) : Except String FS :=
  if dirExists fs segs.dropLast then Except.ok { fs with dirs := fs.dirs ++ [segs] }
  else Except.error "no such file or directory"

/-- `Tools.CreateDirIfNotExist` (v2/tools.go lines 160-171): stat the path,
and call `os.Mkdir` (not `os.MkdirAll`) when it does not exist. -/
def CreateDirIfNotExist (fs : FS) (path : String) : Except String FS :=
  if dirExists fs (cleanSegments (splitOnSlash path)) then Except.ok fs
  else osMkdir fs (cleanSegments (splitOnSlash path))

/-- The `UploadedFile` record (v2/tools.go lines 41-45). -/
structure UploadedFile where
  NewFileName : String
  OriginalFileName : String
  FileSize : Int
deriving DecidableEq

/-- One multipart file part: the client-supplied filename from its header and
its content bytes. -/
structure FileHeader where
  Filename : String
  content : List Nat
deriving DecidableEq

/-- The inbound request as the upload pipeline sees it: `parts` is the
concatenation of `r.MultipartForm.File`'s header lists in iteration order
after a successful `ParseMultipartForm`, and `none` when
`ParseMultipartForm` fails (body over the size limit or malformed). -/
structure Request where
  parts : Option (List FileHeader)

/-- Oracles for the external collaborators of the upload pipeline:
`detect` is `http.DetectContentType` applied to the 512-byte sniff buffer,
and `randomName` gives the value of `t.RandomString(25)` at the i-th call in
the current upload. -/
structure UploadEnv where
  detect : List Nat → String
  randomName : Nat → String

/-- The sniff buffer: `buff := make([]byte, 512)` filled by a single `Read`,
so the first up-to-512 content bytes followed by the zero padding left in the
buffer (v2/tools.go lines 95-96; the byte count returned by `Read` is
discarded, so `DetectContentType` always sees all 512 bytes). -/
def sniffBuff (content : List Nat) : List Nat :=
  content.take 512 ++ List.replicate (512 - content.length) 0

/-- The allow-list check of v2/tools.go lines 101-112: with a non-empty
`AllowedFileTypes` the sniffed type must match some entry under
`strings.EqualFold`; an empty list allows everything. -/
def isAllowedType (t : Tools) (fileType : String) : Bool :=
  if t.AllowedFileTypes.length > 0 then
    t.AllowedFileTypes.any (fun x => EqualFold fileType x)
  else true

/-- The destination-filename computation of v2/tools.go lines 123-127: a
fresh random name keeping the original extension when renaming, the
client-supplied filename verbatim otherwise. -/
def newFileName (env : UploadEnv) (renameFile : Bool) (idx : Nat)
    (hdr : FileHeader) : String :=
  if renameFile then env.randomName idx ++ filepathExt hdr.Filename
  else hdr.Filename

/-- The per-part closure of `UploadFiles` (v2/tools.go lines 87-148): sniff
read (a zero-byte part makes `Read` return `io.EOF`, returned as the error),
content-type check, destination-name computation, `os.Create` at
`filepath.Join(uploadDir, newName)` and full copy after `Seek(0, 0)`.  On
error it returns the Go closure's `nil` slice (here `[]`), discarding the
accumulated manifest. -/
def processPart (env : UploadEnv) (t : Tools) (renameFile : Bool)
    (uploadDir : String) (idx : Nat) (uploadedFiles : List UploadedFile)
    (hdr : FileHeader) (fs : FS) : List UploadedFile × Option String × FS :=
  if hdr.content = [] then ([], some "EOF", fs)
  else if isAllowedType t (env.detect (sniffBuff hdr.content)) = false then
    ([], some "uploaded file type is not permitted", fs)
  else
    (uploadedFiles ++
       [{ NewFileName := newFileName env renameFile idx hdr,
          OriginalFileName := hdr.Filename,
          FileSize := (hdr.content.length : Int) }],
     none,
     { fs with files :=
         fs.files ++ [filepathJoin uploadDir (newFileName env renameFile idx hdr)] })

/-- The part loop of `UploadFiles` (v2/tools.go lines 85-154): run the
closure on each header in order; on the first error return the closure's
result (the `nil` manifest) and that error. -/
def uploadLoop (env : UploadEnv) (t : Tools) (renameFile : Bool)
    (uploadDir : String) :
    List FileHeader → Nat → List UploadedFile → FS →
    List UploadedFile × Option String × FS
  | [], _, acc, fs => (acc, none, fs)
  | hdr :: rest, idx, acc, fs =>
    match processPart env t renameFile uploadDir idx acc hdr fs with
    | (acc2, some e, fs2) => (acc2, some e, fs2)
    | (acc2, none, fs2) => uploadLoop env t renameFile uploadDir rest (idx + 1) acc2 fs2

/-- The full result of `UploadFiles`: the returned slice and error, plus the
final configuration value (the method has a pointer receiver and writes
`t.MaxFileSize`) and filesystem. -/
structure UploadOutcome where
  manifest : List UploadedFile
  error : Option String
  tools : Tools
  fs : FS
deriving DecidableEq

/-- The variadic-rename default of v2/tools.go lines 64-67: `renameFile`
is `true` unless a first variadic argument overrides it. -/
def renameFlag (rename : List Bool) : Bool :=
  match rename with | [] => true | b :: _ => b

/-- The receiver write of v2/tools.go lines 71-73: a zero `MaxFileSize` is
replaced by the 1 GiB default, in place, on the shared `Tools` value. -/
def defaultMaxFileSize (t : Tools) : Tools :=
  if t.MaxFileSize = 0 then { t with MaxFileSize := 1024 * 1024 * 1024 } else t

/-- `Tools.UploadFiles` (v2/tools.go lines 63-157): default the rename flag
to `true`, default a zero `MaxFileSize` to 1 GiB (writing the receiver),
create the upload directory if needed, parse the multipart form, then run
the part loop. -/
def UploadFiles (env : UploadEnv) (t : Tools) (r : Request) (uploadDir : String)
    (rename : List Bool) (fs : FS) : UploadOutcome :=
  match CreateDirIfNotExist fs uploadDir with
  | Except.error e =>
    { manifest := [], error := some e, tools := defaultMaxFileSize t, fs := fs }
  | Except.ok fs1 =>
    match r.parts with
    | none =>
      { manifest := [], error := some "uploaded file is too big",
        tools := defaultMaxFileSize t, fs := fs1 }
    | some parts =>
      { manifest :=
          (uploadLoop env (defaultMaxFileSize t) (renameFlag rename) uploadDir
            parts 0 [] fs1).1,
        error :=
          (uploadLoop env (defaultMaxFileSize t) (renameFlag rename) uploadDir
            parts 0 [] fs1).2.1,
        tools := defaultMaxFileSize t,
        fs :=
          (uploadLoop env (defaultMaxFileSize t) (renameFlag rename) uploadDir
            parts 0 [] fs1).2.2 }

/-- The result of a Go call that may also panic (`crash`), as `UploadOneFile`
does when it indexes an empty slice. -/
inductive GoResult (α : Type) where
  | ok : α → GoResult α
  | err : String → GoResult α
  | crash : GoResult α
deriving DecidableEq

/-- `Tools.UploadOneFile` (v2/tools.go lines 48-60): call `UploadFiles` and
return `files[0]`.  There is no emptiness check, so a successful call with an
empty manifest evaluates `files[0]` on an empty slice, which panics
(`GoResult.crash`). -/
def UploadOneFile (env : UploadEnv) (t : Tools) (r : Request) (uploadDir : String)
    (rename : List Bool) (fs : FS) : GoResult UploadedFile × Tools × FS :=
  let out := UploadFiles env t r uploadDir [renameFlag rename] fs
  match out.error with
  | some e => (GoResult.err e, out.tools, out.fs)
  | none =>
    match out.manifest with
    | [] => (GoResult.crash, out.tools, out.fs)
    | f :: _ => (GoResult.ok f, out.tools, out.fs)

/-- The classified outcomes of one `json.Decoder.Decode` call, mirroring the
error cases distinguished by `ReadJSON`'s switch (v2/tools.go lines 224-245).
`unknownField` carries the remainder of the error text after the prefix
`"json: unknown field"` (what `strings.TrimPrefix` leaves). -/
inductive DecodeErr where
  | syntaxError (offset : Int)
  | unexpectedEOF
  | typeError (field : String) (offset : Int)
  | eof
  | unknownField (rest : String)
  | tooLarge
  | invalidUnmarshal (msg : String)
  | otherErr (msg : String)
deriving DecidableEq

/-- The switch of v2/tools.go lines 224-245 mapping a decode error to the
user-facing message (the typos "characted" and "larged" are in the source). -/
def classifyDecodeErr (maxBytes : Int) : DecodeErr → String
  | DecodeErr.syntaxError off =>
      "body contains badly formed JSON at character " ++ toString off
  | DecodeErr.unexpectedEOF => "body contains badly formed JSON"
  | DecodeErr.typeError field off =>
      if field ≠ "" then
        "body contains incorrect JSON type for field \"" ++ field ++ "\""
      else "body contains incorrect JSON type at characted " ++ toString off
  | DecodeErr.eof => "body must not be empty"
  | DecodeErr.unknownField rest => "body contains unknown key " ++ rest
  | DecodeErr.tooLarge =>
      "body must not be larged than " ++ toString maxBytes ++ " bytes"
  | DecodeErr.invalidUnmarshal msg => "error unmarshaling JSON " ++ msg
  | DecodeErr.otherErr msg => msg

/-- One `Decode` call against the oracle stream of decode outcomes: `none`
is a successful decode, `some e` a failing one; an exhausted stream yields
`io.EOF` forever (the body has no further JSON values). -/
def nextDecode : List (Option DecodeErr) →
    Option DecodeErr × List (Option DecodeErr)
  | [] => (some DecodeErr.eof, [])
  | o :: rest => (o, rest)

/-- `Tools.ReadJSON` (v2/tools.go lines 203-254).  The `encoding/json`
decoder is external, so the body is given as the stream of successive
`Decode` outcomes (already reflecting `DisallowUnknownFields` and
`MaxBytesReader`).  The method decodes one value, classifying any failure;
then decodes a second value and, unless that returns exactly `io.EOF`,
fails with the multiple-values message.  It never writes the receiver, so
the configuration is returned unchanged. -/
def ReadJSON (t : Tools) (body : List (Option DecodeErr)) : Option String × Tools :=
  let maxBytes : Int := if t.MaxJSONSize ≠ 0 then t.MaxJSONSize else 1024 * 1024
  match nextDecode body with
  | (some e, _) => (some (classifyDecodeErr maxBytes e), t)
  | (none, rest) =>
    match nextDecode rest with
    | (some DecodeErr.eof, _) => (none, t)
    | _ => (some "body must contain only one JSON value", t)

/-- Two adjacent slug characters are not both `'-'` (used to state that a
slug has no run of consecutive dashes, via `List.Chain'`). -/
def noDashPair (a b : Char) : Prop := a ≠ '-' ∨ b ≠ '-'

instance : DecidableRel noDashPair := fun a b =>
  inferInstanceAs (Decidable (a ≠ '-' ∨ b ≠ '-'))

/-- A concrete oracle environment used by the concrete evaluations: the
sniffer always answers `"text/plain"` and the random-name generator a fixed
25-character string. -/
def env0 : UploadEnv :=
  { detect := fun _ => "text/plain",
    randomName := fun _ => "RRRRRRRRRRRRRRRRRRRRRRRRR" }

/-- A concrete configuration with no allow-list and a nonzero size limit. -/
def toolsPlain : Tools := ⟨1, [], 0, false⟩

/-- A concrete configuration with a zero `MaxFileSize` (the default case). -/
def toolsZeroMax : Tools := ⟨0, [], 0, false⟩

/-- A concrete configuration allowing only `image/png` uploads. -/
def toolsPngOnly : Tools := ⟨1, ["image/png"], 0, false⟩

/-- A concrete filesystem in which only the directory `uploads` exists. -/
def fsUploads : FS := ⟨[["uploads"]], []⟩

/-- Helper: an in-bounds `getD` returns an element of the list. -/
theorem getD_mem (l : List Char) : ∀ (i : Nat) (d : Char), i < l.length → l.getD i d ∈ l := by
  induction l with
  | nil => intro i d h; simp at h
  | cons a as ih =>
    intro i d h
    cases i with
    | zero => rw [List.getD_cons_zero]; exact List.mem_cons_self a as
    | succ j =>
      rw [List.getD_cons_succ]
      exact List.mem_cons_of_mem a (ih j d (by simpa using Nat.lt_of_succ_lt_succ h))

/-- C3: after a successful first decode, `ReadJSON` runs a second decode on
the remaining stream and succeeds exactly when that second decode returns
`io.EOF`; any other outcome (a second value, or any other error) yields the
`"body must contain only one JSON value"` error. -/
theorem readjson_single_value (t : Tools) (rest : List (Option DecodeErr)) :
    (ReadJSON t (none :: rest)).1 =
      (if (nextDecode rest).1 = some DecodeErr.eof then none
       else some "body must contain only one JSON value") := by
  have h1 : ReadJSON t (none :: rest) =
      (match nextDecode rest with
       | (some DecodeErr.eof, _) => (none, t)
       | _ => (some "body must contain only one JSON value", t)) := rfl
  rcases h : nextDecode rest with ⟨o, r2⟩
  rw [h1, h]
  cases o with
  | none => simp
  | some e => cases e <;> simp

/-- C5 (code_bug): with no directory other than the current one existing,
`CreateDirIfNotExist "a/b"` fails: `os.Mkdir` does not create the
intermediate segment `"a"`, although the claim (and the function's own doc
comment, "creates directory with required parents") promises intermediate
path segments are created. -/
theorem createdir_no_parents :
    CreateDirIfNotExist { dirs := [], files := [] } "a/b" =
      Except.error "no such file or directory" := by decide

/-- C1 (code_bug): a request whose multipart form contains zero file parts
makes `UploadFiles` succeed with an empty manifest, and `UploadOneFile` then
evaluates `files[0]` on the empty slice and panics (`GoResult.crash`) instead
of returning a `NoFilesUploaded` error. -/
theorem uploadonefile_empty_crashes :
    (UploadOneFile env0 toolsPlain ⟨some []⟩ "uploads" [] fsUploads).1 =
      GoResult.crash := by decide

/-- C6 (counterexample): the fixed alphabet of `RandomString` has 63 distinct
characters, not 64 (the source string skips `v` and `V`). -/
theorem randomstring_alphabet_63 :
    randomStringSource.length = 63 ∧ randomStringSource.toList.Nodup ∧
      ¬ randomStringSource.length = 64 := by decide

/-- C6 (amended): for all `n ≥ 0` and any random oracle, `RandomString`
returns a string of length exactly `n` whose characters all come from the
fixed alphabet `randomStringSource`, which has 63 characters. -/
theorem randomstring_length_alphabet (p : Nat → Nat) (n : Nat) :
    (RandomString p n).length = n ∧
    (∀ c ∈ (RandomString p n).toList, c ∈ randomStringSource.toList) ∧
    randomStringSource.length = 63 := by
  refine ⟨?_, ?_, by decide⟩
  · show ((List.range n).map _).length = n
    rw [List.length_map, List.length_range]
  · intro c hc
    have hc2 : c ∈ (List.range n).map (fun i =>
        randomStringSource.toList.getD (p i % randomStringSource.toList.length) 'a') := hc
    rw [List.mem_map] at hc2
    obtain ⟨i, _, hfi⟩ := hc2
    rw [← hfi]
    exact getD_mem _ _ _ (Nat.mod_lt _ (by decide))

/-- C6 (witness): the amended theorem at the identity oracle and `n = 3`. -/
theorem randomstring_length_alphabet_witness :
    (RandomString id 3).length = 3 ∧ 'a' ∈ randomStringSource.toList :=
  ⟨(randomstring_length_alphabet id 3).1,
   (randomstring_length_alphabet id 3).2.1 'a' (by decide)⟩

/-- C7 (counterexample): `UploadFiles` writes its receiver.  With
`MaxFileSize = 0`, the call sets the shared configuration's `MaxFileSize` to
1 GiB, so the caller-supplied configuration is not unchanged. -/
theorem uploadfiles_mutates_config :
    (UploadFiles env0 toolsZeroMax ⟨some []⟩ "uploads" [] fsUploads).tools ≠
      toolsZeroMax := by decide

/-- C7 (amended): `ReadJSON` never writes the configuration; `UploadFiles`
preserves `AllowedFileTypes`, `MaxJSONSize` and `AllowUnknownFields`, and
preserves `MaxFileSize` exactly when it is nonzero — when it is `0` the call
writes the 1 GiB default into the shared `Tools` value. -/
theorem config_frame :
    (∀ (t : Tools) (body : List (Option DecodeErr)), (ReadJSON t body).2 = t) ∧
    (∀ (env : UploadEnv) (t : Tools) (r : Request) (dir : String)
        (rename : List Bool) (fs : FS),
      (UploadFiles env t r dir rename fs).tools =
        (if t.MaxFileSize = 0 then { t with MaxFileSize := 1024 * 1024 * 1024 }
         else t)) ∧
    (∀ (env : UploadEnv) (t : Tools) (r : Request) (dir : String)
        (rename : List Bool) (fs : FS),
      (UploadFiles env t r dir rename fs).tools.AllowedFileTypes =
          t.AllowedFileTypes ∧
        (UploadFiles env t r dir rename fs).tools.MaxJSONSize = t.MaxJSONSize ∧
        (UploadFiles env t r dir rename fs).tools.AllowUnknownFields =
          t.AllowUnknownFields) := by
  have hr : ∀ (t : Tools) (body : List (Option DecodeErr)), (ReadJSON t body).2 = t := by
    intro t body
    cases body with
    | nil => rfl
    | cons o rest =>
      cases o with
      | some e => rfl
      | none =>
        rcases h : nextDecode rest with ⟨o2, r2⟩
        have h1 : ReadJSON t (none :: rest) =
            (match nextDecode rest with
             | (some DecodeErr.eof, _) => (none, t)
             | _ => (some "body must contain only one JSON value", t)) := rfl
        rw [h1, h]
        cases o2 with
        | none => rfl
        | some e2 => cases e2 <;> rfl
  have hu : ∀ (env : UploadEnv) (t : Tools) (r : Request) (dir : String)
      (rename : List Bool) (fs : FS),
      (UploadFiles env t r dir rename fs).tools =
        (if t.MaxFileSize = 0 then { t with MaxFileSize := 1024 * 1024 * 1024 }
         else t) := by
    intro env t r dir rename fs
    unfold UploadFiles
    rcases h1 : CreateDirIfNotExist fs dir with e | fs1 <;> simp only [h1] <;>
      cases r.parts <;> rfl
  refine ⟨hr, hu, ?_⟩
  intro env t r dir rename fs
  rw [hu env t r dir rename fs]
  by_cases h : t.MaxFileSize = 0 <;> simp [h]


/-- Helper: a part with empty content makes the sniff `Read` return
`io.EOF`, which the closure returns as an error with the `nil` slice. -/
theorem processPart_empty (env : UploadEnv) (t : Tools) (rf : Bool)
    (dir : String) (idx : Nat) (acc : List UploadedFile) (hdr : FileHeader)
    (fs : FS) (hc : hdr.content = []) :
    processPart env t rf dir idx acc hdr fs = ([], some "EOF", fs) := by
  unfold processPart
  rw [if_pos hc]

/-- Helper: whenever the per-part closure fails, it returns the `nil` slice,
the reported error, and the filesystem unchanged from this part. -/
theorem processPart_err_shape (env : UploadEnv) (t : Tools) (rf : Bool)
    (dir : String) (idx : Nat) (acc : List UploadedFile) (hdr : FileHeader)
    (fs : FS) (e : String)
    (h : (processPart env t rf dir idx acc hdr fs).2.1 = some e) :
    processPart env t rf dir idx acc hdr fs = ([], some e, fs) := by
  by_cases hc : hdr.content = []
  · unfold processPart at h ⊢
    rw [if_pos hc] at h ⊢
    have h2 : some "EOF" = some e := h
    injection h2 with h3
    rw [← h3]
  · by_cases ha : isAllowedType t (env.detect (sniffBuff hdr.content)) = false
    · unfold processPart at h ⊢
      rw [if_neg hc, if_pos ha] at h ⊢
      have h2 : some "uploaded file type is not permitted" = some e := h
      injection h2 with h3
      rw [← h3]
    · unfold processPart at h
      rw [if_neg hc, if_neg ha] at h
      have h2 : (none : Option String) = some e := h
      exact Option.noConfusion h2

/-- Helper: when the part loop reports an error, the manifest it returns is
empty. -/
theorem uploadLoop_err_nil (env : UploadEnv) (t : Tools) (rf : Bool)
    (dir : String) :
    ∀ (parts : List FileHeader) (idx : Nat) (acc : List UploadedFile) (fs : FS)
      (e : String),
      (uploadLoop env t rf dir parts idx acc fs).2.1 = some e →
      (uploadLoop env t rf dir parts idx acc fs).1 = [] := by
  intro parts
  induction parts with
  | nil =>
    intro idx acc fs e h
    exact absurd h (by simp [uploadLoop])
  | cons hdr rest ih =>
    intro idx acc fs e h
    rcases hp : processPart env t rf dir idx acc hdr fs with ⟨acc2, err2, fs2⟩
    cases err2 with
    | some e2 =>
      have hshape := processPart_err_shape env t rf dir idx acc hdr fs e2 (by rw [hp])
      rw [hp] at hshape
      have hacc : acc2 = [] := congrArg Prod.fst hshape
      have hl : uploadLoop env t rf dir (hdr :: rest) idx acc fs =
          (acc2, some e2, fs2) := by
        simp [uploadLoop, hp]
      rw [hl, hacc]
    | none =>
      have hl : uploadLoop env t rf dir (hdr :: rest) idx acc fs =
          uploadLoop env t rf dir rest (idx + 1) acc2 fs2 := by
        simp [uploadLoop, hp]
      rw [hl] at h ⊢
      exact ih (idx + 1) acc2 fs2 e h

/-- Helper: the per-part closure never removes a created file. -/
theorem processPart_files_extend (env : UploadEnv) (t : Tools) (rf : Bool)
    (dir : String) (idx : Nat) (acc : List UploadedFile) (hdr : FileHeader)
    (fs : FS) :
    ∃ extra, (processPart env t rf dir idx acc hdr fs).2.2.files =
      fs.files ++ extra := by
  unfold processPart
  by_cases hc : hdr.content = []
  · rw [if_pos hc]; exact ⟨[], by simp⟩
  · rw [if_neg hc]
    by_cases ha : isAllowedType t (env.detect (sniffBuff hdr.content)) = false
    · rw [if_pos ha]; exact ⟨[], by simp⟩
    · rw [if_neg ha]; exact ⟨_, rfl⟩

/-- Helper: the part loop never removes a created file. -/
theorem uploadLoop_files_extend (env : UploadEnv) (t : Tools) (rf : Bool)
    (dir : String) :
    ∀ (parts : List FileHeader) (idx : Nat) (acc : List UploadedFile) (fs : FS),
      ∃ extra, (uploadLoop env t rf dir parts idx acc fs).2.2.files =
        fs.files ++ extra := by
  intro parts
  induction parts with
  | nil => intro idx acc fs; exact ⟨[], by simp [uploadLoop]⟩
  | cons hdr rest ih =>
    intro idx acc fs
    rcases hp : processPart env t rf dir idx acc hdr fs with ⟨acc2, err2, fs2⟩
    have hfs2 : ∃ extra0, fs2.files = fs.files ++ extra0 := by
      rcases processPart_files_extend env t rf dir idx acc hdr fs with ⟨extra0, hx⟩
      rw [hp] at hx
      exact ⟨extra0, hx⟩
    rcases hfs2 with ⟨extra0, hextra0⟩
    cases err2 with
    | some e2 =>
      have hl : uploadLoop env t rf dir (hdr :: rest) idx acc fs =
          (acc2, some e2, fs2) := by
        simp [uploadLoop, hp]
      exact ⟨extra0, by rw [hl]; exact hextra0⟩
    | none =>
      have hl : uploadLoop env t rf dir (hdr :: rest) idx acc fs =
          uploadLoop env t rf dir rest (idx + 1) acc2 fs2 := by
        simp [uploadLoop, hp]
      rcases ih (idx + 1) acc2 fs2 with ⟨extra1, hextra1⟩
      exact ⟨extra0 ++ extra1, by rw [hl, hextra1, hextra0, List.append_assoc]⟩

/-- C9: whenever `UploadFiles` returns an error, the manifest it returns is
the `nil` slice — records for parts already written earlier in the same call
are absent — and yet no created file is ever removed from the filesystem
(the files written for earlier parts remain on disk). -/
theorem uploadfiles_error_nil_manifest :
    (∀ (env : UploadEnv) (t : Tools) (r : Request) (dir : String)
        (rename : List Bool) (fs : FS) (e : String),
      (UploadFiles env t r dir rename fs).error = some e →
      (UploadFiles env t r dir rename fs).manifest = []) ∧
    (∀ (env : UploadEnv) (t : Tools) (r : Request) (dir : String)
        (rename : List Bool) (fs : FS),
      ∃ extra, (UploadFiles env t r dir rename fs).fs.files =
        fs.files ++ extra) := by
  have hcd : ∀ (fs : FS) (dir : String) (fs1 : FS),
      CreateDirIfNotExist fs dir = Except.ok fs1 → fs1.files = fs.files := by
    intro fs dir fs1 h1
    unfold CreateDirIfNotExist at h1
    split at h1
    · cases h1; rfl
    · unfold osMkdir at h1
      split at h1
      · cases h1; rfl
      · cases h1
  constructor
  · intro env t r dir rename fs e h
    unfold UploadFiles at h ⊢
    rcases h1 : CreateDirIfNotExist fs dir with e1 | fs1
    · rfl
    · rcases h2 : r.parts with _ | parts
      · rfl
      · rw [h1, h2] at h
        exact uploadLoop_err_nil env (defaultMaxFileSize t) (renameFlag rename)
          dir parts 0 [] fs1 e h
  · intro env t r dir rename fs
    unfold UploadFiles
    rcases h1 : CreateDirIfNotExist fs dir with e1 | fs1
    · exact ⟨[], by simp⟩
    · rcases h2 : r.parts with _ | parts
      · exact ⟨[], by simp [hcd fs dir fs1 h1]⟩
      · rcases uploadLoop_files_extend env (defaultMaxFileSize t)
          (renameFlag rename) dir parts 0 [] fs1 with ⟨extra, hx⟩
        refine ⟨extra, ?_⟩
        show (uploadLoop env (defaultMaxFileSize t) (renameFlag rename) dir
          parts 0 [] fs1).2.2.files = fs.files ++ extra
        rw [hx, hcd fs dir fs1 h1]

/-- C9 (witness): a concrete failing call (one zero-byte part) returns the
empty manifest. -/
theorem uploadfiles_error_nil_manifest_witness :
    (UploadFiles env0 toolsPlain ⟨some [⟨"e.txt", []⟩]⟩ "uploads" []
      fsUploads).manifest = [] :=
  uploadfiles_error_nil_manifest.1 env0 toolsPlain ⟨some [⟨"e.txt", []⟩]⟩
    "uploads" [] fsUploads "EOF" (by decide)

/-- Helper: a zero-byte part anywhere in the part list makes the loop report
an error. -/
theorem uploadLoop_empty_part (env : UploadEnv) (t : Tools) (rf : Bool)
    (dir : String) :
    ∀ (parts : List FileHeader) (idx : Nat) (acc : List UploadedFile) (fs : FS)
      (hdr : FileHeader), hdr ∈ parts → hdr.content = [] →
      (uploadLoop env t rf dir parts idx acc fs).2.1 ≠ none := by
  intro parts
  induction parts with
  | nil =>
    intro idx acc fs hdr hm
    exact absurd hm (List.not_mem_nil hdr)
  | cons h1 rest ih =>
    intro idx acc fs hdr hm hc
    rcases hp : processPart env t rf dir idx acc h1 fs with ⟨acc2, err2, fs2⟩
    cases err2 with
    | some e2 =>
      have hl : uploadLoop env t rf dir (h1 :: rest) idx acc fs =
          (acc2, some e2, fs2) := by
        simp [uploadLoop, hp]
      rw [hl]
      simp
    | none =>
      have hl : uploadLoop env t rf dir (h1 :: rest) idx acc fs =
          uploadLoop env t rf dir rest (idx + 1) acc2 fs2 := by
        simp [uploadLoop, hp]
      rw [hl]
      rcases List.mem_cons.mp hm with heq | hm2
      · rw [← heq] at hp
        rw [processPart_empty env t rf dir idx acc hdr fs hc] at hp
        exact absurd (congrArg (fun x => x.2.1) hp) (by simp)
      · exact ih (idx + 1) acc2 fs2 hdr hm2 hc

/-- C10: a zero-byte file part makes the sniff `Read` return `io.EOF`, which
the closure treats as a failure of the whole part, so any multipart request
containing a zero-byte part makes `UploadFiles` fail the entire call — an
empty file can never be uploaded successfully. -/
theorem empty_part_fails :
    (∀ (env : UploadEnv) (t : Tools) (rf : Bool) (dir : String) (idx : Nat)
        (acc : List UploadedFile) (hdr : FileHeader) (fs : FS),
      hdr.content = [] →
      processPart env t rf dir idx acc hdr fs = ([], some "EOF", fs)) ∧
    (∀ (env : UploadEnv) (t : Tools) (r : Request) (dir : String)
        (rename : List Bool) (fs : FS) (parts : List FileHeader)
        (hdr : FileHeader),
      r.parts = some parts → hdr ∈ parts → hdr.content = [] →
      (UploadFiles env t r dir rename fs).error ≠ none) := by
  constructor
  · intro env t rf dir idx acc hdr fs hc
    exact processPart_empty env t rf dir idx acc hdr fs hc
  · intro env t r dir rename fs parts hdr hr hm hc
    unfold UploadFiles
    rcases h1 : CreateDirIfNotExist fs dir with e1 | fs1
    · simp
    · rcases h2 : r.parts with _ | parts2
      · simp
      · have hparts : parts2 = parts := by
          rw [hr] at h2
          exact (Option.some.inj h2).symm
        rw [hparts]
        exact uploadLoop_empty_part env (defaultMaxFileSize t)
          (renameFlag rename) dir parts 0 [] fs1 hdr hm hc

/-- C10 (witness): a concrete request with one zero-byte part fails. -/
theorem empty_part_fails_witness :
    (UploadFiles env0 toolsPlain ⟨some [⟨"empty.txt", []⟩]⟩ "uploads" []
      fsUploads).error ≠ none :=
  empty_part_fails.2 env0 toolsPlain ⟨some [⟨"empty.txt", []⟩]⟩ "uploads" []
    fsUploads [⟨"empty.txt", []⟩] ⟨"empty.txt", []⟩ rfl (by decide) rfl

/-- Helper: the 1 GiB default for `MaxFileSize` does not change the
allow-list, so the type check is unaffected by the receiver write. -/
theorem isAllowedType_defaultMaxFileSize (t : Tools) (ft : String) :
    isAllowedType (defaultMaxFileSize t) ft = isAllowedType t ft := by
  unfold defaultMaxFileSize
  by_cases h : t.MaxFileSize = 0
  · rw [if_pos h]; rfl
  · rw [if_neg h]

/-- Helper: a reached part whose sniffed type fails the allow-list check
makes the closure fail with the disallowed-type error, discarding the
accumulated manifest and writing nothing. -/
theorem processPart_disallowed (env : UploadEnv) (t : Tools) (rf : Bool)
    (dir : String) (idx : Nat) (acc : List UploadedFile) (hdr : FileHeader)
    (fs : FS) (hc : hdr.content ≠ [])
    (ha : isAllowedType t (env.detect (sniffBuff hdr.content)) = false) :
    processPart env t rf dir idx acc hdr fs =
      ([], some "uploaded file type is not permitted", fs) := by
  unfold processPart
  rw [if_neg hc, if_pos ha]

/-- Helper: a disallowed part at the head of the remaining part list aborts
the loop at once: the later parts are never processed, the accumulated
manifest is discarded, and no further file is written. -/
theorem uploadLoop_disallowed_head (env : UploadEnv) (t : Tools) (rf : Bool)
    (dir : String) (idx : Nat) (acc : List UploadedFile) (hdr : FileHeader)
    (rest : List FileHeader) (fs : FS) (hc : hdr.content ≠ [])
    (ha : isAllowedType t (env.detect (sniffBuff hdr.content)) = false) :
    uploadLoop env t rf dir (hdr :: rest) idx acc fs =
      ([], some "uploaded file type is not permitted", fs) := by
  simp [uploadLoop, processPart_disallowed env t rf dir idx acc hdr fs hc ha]

/-- Helper: the part loop splits over list append: the second half runs only
when the first half finishes without error, continuing from its state. -/
theorem uploadLoop_append (env : UploadEnv) (t : Tools) (rf : Bool)
    (dir : String) :
    ∀ (pre rest : List FileHeader) (idx : Nat) (acc : List UploadedFile)
      (fs : FS),
      uploadLoop env t rf dir (pre ++ rest) idx acc fs =
        (match uploadLoop env t rf dir pre idx acc fs with
         | (files, some e, fs2) => (files, some e, fs2)
         | (files, none, fs2) =>
           uploadLoop env t rf dir rest (idx + pre.length) files fs2) := by
  intro pre
  induction pre with
  | nil =>
    intro rest idx acc fs
    simp [uploadLoop]
  | cons h1 tl ih =>
    intro rest idx acc fs
    rcases hp : processPart env t rf dir idx acc h1 fs with ⟨acc2, err2, fs2⟩
    cases err2 with
    | some e2 =>
      have hl : ∀ (l : List FileHeader),
          uploadLoop env t rf dir (h1 :: l) idx acc fs = (acc2, some e2, fs2) := by
        intro l
        simp [uploadLoop, hp]
      rw [List.cons_append, hl (tl ++ rest), hl tl]
    | none =>
      have hl : ∀ (l : List FileHeader),
          uploadLoop env t rf dir (h1 :: l) idx acc fs =
            uploadLoop env t rf dir l (idx + 1) acc2 fs2 := by
        intro l
        simp [uploadLoop, hp]
      rw [List.cons_append, hl (tl ++ rest), hl tl, ih rest (idx + 1) acc2 fs2]
      have harith : idx + 1 + tl.length = idx + (h1 :: tl).length := by
        simp [List.length_cons]
        omega
      rw [harith]

/-- C2: the allow-list semantics of `UploadFiles`.  An empty
`AllowedFileTypes` admits every sniffed type.  A reached part whose sniffed
type has no case-insensitive match fails the whole call at once with the
disallowed-type error: later parts are skipped, the records accumulated for
earlier parts are discarded (no partial success), and this holds wherever
the offending part sits after any error-free prefix of parts. -/
theorem disallowed_type_aborts :
    (∀ (t : Tools) (ft : String), t.AllowedFileTypes = [] →
      isAllowedType t ft = true) ∧
    (∀ (env : UploadEnv) (t : Tools) (rf : Bool) (dir : String) (pre : List FileHeader)
        (idx : Nat) (acc files1 : List UploadedFile) (fs fs1 : FS)
        (hdr : FileHeader) (rest : List FileHeader),
      uploadLoop env t rf dir pre idx acc fs = (files1, none, fs1) →
      hdr.content ≠ [] →
      isAllowedType t (env.detect (sniffBuff hdr.content)) = false →
      uploadLoop env t rf dir (pre ++ hdr :: rest) idx acc fs =
        ([], some "uploaded file type is not permitted", fs1)) ∧
    (∀ (env : UploadEnv) (t : Tools) (r : Request) (dir : String)
        (rename : List Bool) (fs fs1 : FS) (hdr : FileHeader)
        (rest : List FileHeader),
      CreateDirIfNotExist fs dir = Except.ok fs1 →
      r.parts = some (hdr :: rest) →
      hdr.content ≠ [] →
      isAllowedType t (env.detect (sniffBuff hdr.content)) = false →
      (UploadFiles env t r dir rename fs).error =
          some "uploaded file type is not permitted" ∧
        (UploadFiles env t r dir rename fs).manifest = []) := by
  refine ⟨?_, ?_, ?_⟩
  · intro t ft h
    unfold isAllowedType
    rw [h]
    rfl
  · intro env t rf dir pre idx acc files1 fs fs1 hdr rest hpre hc ha
    rw [uploadLoop_append env t rf dir pre (hdr :: rest) idx acc fs, hpre]
    exact uploadLoop_disallowed_head env t rf dir (idx + pre.length) files1
      hdr rest fs1 hc ha
  · intro env t r dir rename fs fs1 hdr rest hcd hr hc ha
    have ha2 : isAllowedType (defaultMaxFileSize t)
        (env.detect (sniffBuff hdr.content)) = false := by
      rw [isAllowedType_defaultMaxFileSize]
      exact ha
    constructor
    · unfold UploadFiles
      rcases h1 : CreateDirIfNotExist fs dir with e1 | fs2
      · exact absurd (h1.symm.trans hcd) (by simp)
      · have hfs : fs2 = fs1 := Except.ok.inj (h1.symm.trans hcd)
        rcases h2 : r.parts with _ | parts
        · exact absurd (h2.symm.trans hr) (by simp)
        · have hps : parts = hdr :: rest := Option.some.inj (h2.symm.trans hr)
          rw [hps, hfs]
          show (uploadLoop env (defaultMaxFileSize t) (renameFlag rename) dir
            (hdr :: rest) 0 [] fs1).2.1 = some "uploaded file type is not permitted"
          rw [uploadLoop_disallowed_head env (defaultMaxFileSize t)
            (renameFlag rename) dir 0 [] hdr rest fs1 hc ha2]
    · unfold UploadFiles
      rcases h1 : CreateDirIfNotExist fs dir with e1 | fs2
      · exact absurd (h1.symm.trans hcd) (by simp)
      · have hfs : fs2 = fs1 := Except.ok.inj (h1.symm.trans hcd)
        rcases h2 : r.parts with _ | parts
        · exact absurd (h2.symm.trans hr) (by simp)
        · have hps : parts = hdr :: rest := Option.some.inj (h2.symm.trans hr)
          rw [hps, hfs]
          show (uploadLoop env (defaultMaxFileSize t) (renameFlag rename) dir
            (hdr :: rest) 0 [] fs1).1 = []
          rw [uploadLoop_disallowed_head env (defaultMaxFileSize t)
            (renameFlag rename) dir 0 [] hdr rest fs1 hc ha2]

/-- C2 (witness): a concrete request with one `text/plain` part against a
png-only allow-list fails with the disallowed-type error and an empty
manifest. -/
theorem disallowed_type_aborts_witness :
    (UploadFiles env0 toolsPngOnly ⟨some [⟨"a.txt", [1, 2, 3]⟩]⟩ "uploads" []
        fsUploads).error = some "uploaded file type is not permitted" ∧
      (UploadFiles env0 toolsPngOnly ⟨some [⟨"a.txt", [1, 2, 3]⟩]⟩ "uploads" []
        fsUploads).manifest = [] :=
  disallowed_type_aborts.2.2 env0 toolsPngOnly ⟨some [⟨"a.txt", [1, 2, 3]⟩]⟩
    "uploads" [] fsUploads fsUploads ⟨"a.txt", [1, 2, 3]⟩ [] (by decide) rfl
    (by decide) (by decide)

/-- C4 (counterexample): with `rename = false` and the client-supplied
filename `"../evil.txt"`, the upload writes to
`filepath.Join("uploads", "../evil.txt") = "evil.txt"` — a path outside the
destination directory — so no sanitization of `..` segments takes place. -/
theorem norename_traversal_counterexample :
    (UploadFiles env0 toolsPlain ⟨some [⟨"../evil.txt", [1, 2, 3]⟩]⟩ "uploads"
        [false] fsUploads).fs.files = [["evil.txt"]] ∧
      List.isPrefixOf (cleanSegments (splitOnSlash "uploads")) ["evil.txt"] =
        false := by
  decide

/-- C4 (amended): with `rename = false` the client-supplied filename is used
verbatim as the destination name — no path separator or `..` sanitization —
and the file is created at `filepath.Join(destinationDir, filename)`, which
a `..`-bearing filename can resolve to a path outside the destination
directory. -/
theorem norename_uses_filename_verbatim (env : UploadEnv) (t : Tools)
    (dir : String) (idx : Nat) (acc : List UploadedFile) (hdr : FileHeader)
    (fs : FS) (hc : hdr.content ≠ [])
    (ha : isAllowedType t (env.detect (sniffBuff hdr.content)) = true) :
    processPart env t false dir idx acc hdr fs =
      (acc ++ [⟨hdr.Filename, hdr.Filename, (hdr.content.length : Int)⟩], none,
       { fs with files := fs.files ++ [filepathJoin dir hdr.Filename] }) := by
  unfold processPart
  rw [if_neg hc,
    if_neg (by simp [ha] :
      ¬ isAllowedType t (env.detect (sniffBuff hdr.content)) = false)]
  rfl

/-- C4 (witness): the amended theorem at the traversal input. -/
theorem norename_uses_filename_verbatim_witness :
    processPart env0 toolsPlain false "uploads" 0 [] ⟨"../evil.txt", [1, 2, 3]⟩
        fsUploads =
      ([] ++ [⟨"../evil.txt", "../evil.txt", (([1, 2, 3] : List Nat).length : Int)⟩],
        none,
       { fsUploads with files :=
          fsUploads.files ++ [filepathJoin "uploads" "../evil.txt"] }) :=
  norename_uses_filename_verbatim env0 toolsPlain "uploads" 0 []
    ⟨"../evil.txt", [1, 2, 3]⟩ fsUploads (by decide) (by decide)

/-- Helper: slug-kept characters (lowercase letters and digits) are not the
dash. -/
theorem keep_ne_dash (c : Char) (h : isSlugKeep c = true) : c ≠ '-' := by
  intro heq
  subst heq
  exact absurd h (by decide)

/-- Helper: slug-kept characters are fixed by ASCII lowercasing. -/
theorem keep_toLower_fix (c : Char) (h : isSlugKeep c = true) :
    toLowerChar c = c := by
  have h2 : (97 ≤ c.toNat ∧ c.toNat ≤ 122) ∨ (48 ≤ c.toNat ∧ c.toNat ≤ 57) := by
    simpa [isSlugKeep] using h
  unfold toLowerChar
  rw [if_neg (by omega : ¬ (65 ≤ c.toNat ∧ c.toNat ≤ 90))]

/-- Helper: inside a run (`inRun = true`) the next emitted character, if
any, is a kept character. -/
theorem replAux_true_head (l : List Char) :
    ∀ c, (replAux true l).head? = some c → isSlugKeep c = true := by
  induction l with
  | nil => intro c h; exact absurd h (by simp [replAux])
  | cons a as ih =>
    intro c h
    by_cases ha : isSlugKeep a
    · unfold replAux at h
      rw [if_pos ha] at h
      have h2 : some a = some c := h
      exact (Option.some.inj h2) ▸ ha
    · unfold replAux at h
      rw [if_neg ha] at h
      exact ih c h

/-- Helper: every character of the replaced string is kept or a dash. -/
theorem replAux_mem (l : List Char) :
    ∀ (b : Bool) (c : Char), c ∈ replAux b l → isSlugKeep c = true ∨ c = '-' := by
  induction l with
  | nil => intro b c h; exact absurd h (by simp [replAux])
  | cons a as ih =>
    intro b c h
    by_cases ha : isSlugKeep a
    · unfold replAux at h
      rw [if_pos ha] at h
      rcases List.mem_cons.mp h with heq | h2
      · exact Or.inl (heq ▸ ha)
      · exact ih false c h2
    · unfold replAux at h
      rw [if_neg ha] at h
      cases b with
      | true => exact ih true c h
      | false =>
        have h3 : c ∈ '-' :: replAux true as := h
        rcases List.mem_cons.mp h3 with heq | h2
        · exact Or.inr heq
        · exact ih true c h2

/-- Helper: the replaced string never contains two adjacent dashes. -/
theorem replAux_chain (l : List Char) :
    ∀ b, List.Chain' noDashPair (replAux b l) := by
  induction l with
  | nil => intro b; simp [replAux]
  | cons a as ih =>
    intro b
    by_cases ha : isSlugKeep a
    · unfold replAux
      rw [if_pos ha, List.chain'_cons']
      constructor
      · intro y hy
        exact Or.inl (keep_ne_dash a ha)
      · exact ih false
    · unfold replAux
      rw [if_neg ha]
      cases b with
      | true => exact ih true
      | false =>
        show List.Chain' noDashPair ('-' :: replAux true as)
        rw [List.chain'_cons']
        constructor
        · intro y hy
          exact Or.inr (keep_ne_dash y (replAux_true_head as y (Option.mem_def.mp hy)))
        · exact ih true

/-- Helper: the head of `dropWhile p` does not satisfy `p`. -/
theorem dropWhile_head_not (p : Char → Bool) :
    ∀ (l : List Char) (c : Char), (l.dropWhile p).head? = some c →
      p c = false := by
  intro l
  induction l with
  | nil => intro c h; exact absurd h (by simp)
  | cons a as ih =>
    intro c h
    by_cases hp : p a = true
    · rw [List.dropWhile_cons_of_pos hp] at h
      exact ih c h
    · rw [List.dropWhile_cons_of_neg hp] at h
      have h2 : some a = some c := h
      rw [← Option.some.inj h2]
      simpa using hp

/-- Helper: membership survives `dropWhile`. -/
theorem mem_dropWhile (p : Char → Bool) :
    ∀ (l : List Char) (c : Char), c ∈ l.dropWhile p → c ∈ l := by
  intro l
  induction l with
  | nil => intro c h; simp at h
  | cons a as ih =>
    intro c h
    by_cases hp : p a = true
    · rw [List.dropWhile_cons_of_pos hp] at h
      exact List.mem_cons_of_mem a (ih c h)
    · rw [List.dropWhile_cons_of_neg hp] at h
      exact h

/-- Helper: membership survives trimming. -/
theorem mem_trimDash (l : List Char) (c : Char) (h : c ∈ trimDash l) :
    c ∈ l := by
  unfold trimDash at h
  rw [List.mem_reverse] at h
  have h2 := mem_dropWhile _ _ c h
  rw [List.mem_reverse] at h2
  exact mem_dropWhile _ _ c h2

/-- Helper: adjacent-pair properties survive `dropWhile`. -/
theorem chain_dropWhile (p : Char → Bool) :
    ∀ (l : List Char), List.Chain' noDashPair l →
      List.Chain' noDashPair (l.dropWhile p) := by
  intro l
  induction l with
  | nil => intro h; simp
  | cons a as ih =>
    intro h
    by_cases hp : p a = true
    · rw [List.dropWhile_cons_of_pos hp]
      exact ih (List.chain'_cons'.mp h).2
    · rw [List.dropWhile_cons_of_neg hp]
      exact h

/-- Helper: the no-adjacent-dash property survives reversal. -/
theorem chain_reverse_noDash (l : List Char)
    (h : List.Chain' noDashPair l) : List.Chain' noDashPair l.reverse := by
  rw [List.chain'_reverse]
  exact List.Chain'.imp (fun a b hab => Or.symm hab) h

/-- Helper: a nonempty `dropWhile` keeps the last element. -/
theorem getLast_dropWhile (p : Char → Bool) :
    ∀ (l : List Char), l.dropWhile p ≠ [] →
      (l.dropWhile p).getLast? = l.getLast? := by
  intro l
  induction l with
  | nil => intro h; exact absurd rfl h
  | cons a as ih =>
    intro h
    by_cases hp : p a = true
    · rw [List.dropWhile_cons_of_pos hp] at h ⊢
      rw [ih h]
      cases as with
      | nil => exact absurd (by simp) h
      | cons b bs => rw [List.getLast?_cons_cons]
    · rw [List.dropWhile_cons_of_neg hp]

/-- Helper: a trimmed string never starts with a dash. -/
theorem trimDash_head (l : List Char) :
    ∀ c, (trimDash l).head? = some c → c ≠ '-' := by
  intro c h
  unfold trimDash at h
  rw [List.head?_reverse] at h
  by_cases hnil :
      (l.dropWhile (fun c => c = '-')).reverse.dropWhile (fun c => c = '-') = []
  · rw [hnil] at h
    exact absurd h (by simp)
  · rw [getLast_dropWhile _ _ hnil, List.getLast?_reverse] at h
    have h2 := dropWhile_head_not (fun c => c = '-') l c h
    simpa using h2

/-- Helper: a trimmed string never ends with a dash. -/
theorem trimDash_last (l : List Char) :
    ∀ c, (trimDash l).getLast? = some c → c ≠ '-' := by
  intro c h
  unfold trimDash at h
  rw [List.getLast?_reverse] at h
  have h2 := dropWhile_head_not (fun c => c = '-') _ c h
  simpa using h2

/-- Helper: the no-adjacent-dash property survives trimming. -/
theorem trimDash_chain (l : List Char) (h : List.Chain' noDashPair l) :
    List.Chain' noDashPair (trimDash l) := by
  unfold trimDash
  exact chain_reverse_noDash _
    (chain_dropWhile _ _ (chain_reverse_noDash _ (chain_dropWhile _ _ h)))

/-- Helper: a function fixing every element of a list maps it to itself. -/
theorem map_fix_of_mem :
    ∀ (l : List Char) (f : Char → Char), (∀ c ∈ l, f c = c) → l.map f = l := by
  intro l f
  induction l with
  | nil => intro h; rfl
  | cons a as ih =>
    intro h
    rw [List.map_cons, h a (List.mem_cons_self a as),
      ih (fun c hc => h c (List.mem_cons_of_mem a hc))]

/-- C8: every slug `Slugify` returns is fully lowercase (ASCII lowercasing
is a no-op on it), never starts or ends with `'-'`, and never contains two
adjacent `'-'` characters; moreover `Slugify "now is the time"` is
`"now-is-the-time"` and `Slugify ""` fails with the empty-input error. -/
theorem slugify_spec :
    (∀ (s slug : String), Slugify s = Except.ok slug →
      (slug.toList.map toLowerChar = slug.toList ∧
       List.Chain' noDashPair slug.toList ∧
       slug.toList.head? ≠ some '-' ∧
       slug.toList.getLast? ≠ some '-')) ∧
    Slugify "now is the time" = Except.ok "now-is-the-time" ∧
    Slugify "" = Except.error "empty string is not permitted" := by
  refine ⟨?_, by decide, by decide⟩
  intro s slug h
  by_cases hs : s = ""
  · rw [hs] at h
    unfold Slugify at h
    rw [if_pos rfl] at h
    exact Except.noConfusion h
  · unfold Slugify at h
    rw [if_neg hs] at h
    have h2 : (if (trimDash (replaceRuns (s.toList.map toLowerChar))).length = 0
        then (Except.error "after removing characters, slug is zero length" :
          Except String String)
        else Except.ok
          (String.mk (trimDash (replaceRuns (s.toList.map toLowerChar))))) =
        Except.ok slug := h
    by_cases hlen : (trimDash (replaceRuns (s.toList.map toLowerChar))).length = 0
    · rw [if_pos hlen] at h2
      exact Except.noConfusion h2
    · rw [if_neg hlen] at h2
      have hmk : String.mk (trimDash (replaceRuns (s.toList.map toLowerChar))) =
          slug := Except.ok.inj h2
      have hslug : slug.toList = trimDash (replaceRuns (s.toList.map toLowerChar)) := by
        rw [← hmk]
        rfl
      have hmem : ∀ c ∈ slug.toList, isSlugKeep c = true ∨ c = '-' := by
        intro c hc
        rw [hslug] at hc
        exact replAux_mem _ false c (mem_trimDash _ c hc)
      refine ⟨?_, ?_, ?_, ?_⟩
      · refine map_fix_of_mem slug.toList toLowerChar ?_
        intro c hc
        rcases hmem c hc with hk | heq
        · exact keep_toLower_fix c hk
        · rw [heq]
          decide
      · rw [hslug]
        exact trimDash_chain _ (replAux_chain _ false)
      · intro hh
        rw [hslug] at hh
        exact trimDash_head _ '-' hh rfl
      · intro hh
        rw [hslug] at hh
        exact trimDash_last _ '-' hh rfl

/-- C8 (witness): the universal part of the theorem applied at the concrete
input `"now is the time"` and its slug. -/
theorem slugify_spec_witness :
    "now-is-the-time".toList.map toLowerChar = "now-is-the-time".toList ∧
      List.Chain' noDashPair "now-is-the-time".toList ∧
      "now-is-the-time".toList.head? ≠ some '-' ∧
      "now-is-the-time".toList.getLast? ≠ some '-' :=
  slugify_spec.1 "now is the time" "now-is-the-time" (by decide)
